import Mathlib

/-!
Shallow embedding of the rust-raytracer core (src/main.rs, src/maths/vec3.rs,
src/maths/utils.rs).  Floating-point scalars are modelled by the reals; the
value `f64::INFINITY` passed as `t_max` (and stored in the initial closest-hit
record in `ray_color`) is modelled by `⊤ : WithTop ℝ`.  Randomness is an
explicit oracle: the two draws underlying `random_in_unit_sphere` and the
uniform draw of the dielectric Fresnel choice are passed as parameters, and
`ray_color` receives a stream of such draws indexed by the recursion depth.
-/

noncomputable section

/-- 3-component vector over the reals, after `Vec3` in src/maths/vec3.rs. -/
structure Vec3 where
  x : ℝ
  y : ℝ
  z : ℝ

namespace Vec3

def add (v w : Vec3) : Vec3 := ⟨v.x + w.x, v.y + w.y, v.z + w.z⟩

def sub (v w : Vec3) : Vec3 := ⟨v.x - w.x, v.y - w.y, v.z - w.z⟩

def neg (v : Vec3) : Vec3 := ⟨-v.x, -v.y, -v.z⟩

def length_squared (v : Vec3) : ℝ := v.x * v.x + v.y * v.y + v.z * v.z

def length (v : Vec3) : ℝ := Real.sqrt v.length_squared

def mult (v w : Vec3) : Vec3 := ⟨v.x * w.x, v.y * w.y, v.z * w.z⟩

def mult_float (v : Vec3) (t : ℝ) : Vec3 := ⟨v.x * t, v.y * t, v.z * t⟩

def div (v : Vec3) (t : ℝ) : Vec3 := v.mult_float (1 / t)

def dot (v w : Vec3) : ℝ := v.x * w.x + v.y * w.y + v.z * w.z

def cross (v w : Vec3) : Vec3 :=
  ⟨v.y * w.z - v.z * w.y, v.z * w.x - v.x * w.z, v.x * w.y - v.y * w.x⟩

def unit (v : Vec3) : Vec3 := v.div v.length

end Vec3

instance : Add Vec3 := ⟨Vec3.add⟩

instance : Sub Vec3 := ⟨Vec3.sub⟩

instance : Neg Vec3 := ⟨Vec3.neg⟩

instance : Mul Vec3 := ⟨Vec3.mult⟩

instance : HMul Vec3 ℝ Vec3 := ⟨Vec3.mult_float⟩

instance : HMul ℝ Vec3 Vec3 := ⟨fun t v => v.mult_float t⟩

instance : HDiv Vec3 ℝ Vec3 := ⟨Vec3.div⟩

/-- A ray, after `Ray` in src/main.rs: origin plus direction. -/
structure Ray where
  origin : Vec3
  dir : Vec3

/-- Parametric point evaluation `Ray::at`. -/
def Ray.at (r : Ray) (t : ℝ) : Vec3 := r.origin + r.dir * t

/-- Mirror reflection, after `reflect` in src/main.rs. -/
def reflect (v n : Vec3) : Vec3 := v - v.dot n * n * (2 : ℝ)

/-- Snell refraction, after `refract` in src/main.rs. -/
def refract (uv n : Vec3) (etai_over_etat : ℝ) : Vec3 :=
  let cos_theta := (-uv).dot n
  let r_out_parallel := etai_over_etat * (uv + cos_theta * n)
  let r_out_perp := (-(Real.sqrt (1 - r_out_parallel.length_squared))) * n
  r_out_parallel + r_out_perp

/-- Schlick reflectance approximation, after `schlick` in src/main.rs. -/
def schlick (cosine ref_idx : ℝ) : ℝ :=
  let r0 := (1 - ref_idx) / (1 + ref_idx)
  let r1 := r0 * r0
  r1 + (1 - r1) * (1 - cosine) ^ (5 : ℕ)

/-- Point on the unit sphere as a function of the two underlying uniform
draws, after `random_in_unit_sphere` in src/maths/utils.rs (`a` is drawn in
`[0, 2π)` and `z` in `[-1, 1]`). -/
def random_in_unit_sphere (a z : ℝ) : Vec3 :=
  let r := Real.sqrt (1 - z * z)
  ⟨r * Real.cos a, r * Real.sin a, z⟩

/-- After `random_in_hemisphere` in src/maths/utils.rs: the unit-sphere sample,
flipped to the side of `normal` when needed. -/
def random_in_hemisphere (a z : ℝ) (normal : Vec3) : Vec3 :=
  let in_unit_sphere := random_in_unit_sphere a z
  if in_unit_sphere.dot normal > 0 then in_unit_sphere else -in_unit_sphere

/-- After `clamp` in src/maths/utils.rs. -/
def clamp (x min max : ℝ) : ℝ :=
  if x < min then min else if x > max then max else x

/-- Material descriptor, after `MaterialType` in src/main.rs (keeping the
source spelling `Dialectric`). -/
inductive MaterialType where
  | Lambertian (albedo : Vec3)
  | Metal (albedo : Vec3) (fuzziness : ℝ)
  | Dialectric (refractive_index : ℝ)

/-- Hit record, after `HitRecord` in src/main.rs.  The distance `t` lives in
`WithTop ℝ` because `ray_color` seeds its scan with a record whose `t` is
`f64::INFINITY`. -/
structure HitRecord where
  position : Vec3
  normal : Vec3
  t : WithTop ℝ
  front_face : Bool
  material : MaterialType

/-- Constructor `HitRecord::new` in src/main.rs: flips the normal to oppose
the ray when `front_face` is false, then re-normalizes it to unit length. -/
def HitRecord.new (position normal : Vec3) (t : WithTop ℝ) (front_face : Bool)
    (material : MaterialType) : HitRecord :=
  let normal1 := if front_face then normal else -normal
  ⟨position, normal1.unit, t, front_face, material⟩

/-- Sphere primitive, after `Sphere` in src/main.rs. -/
structure Sphere where
  position : Vec3
  radius : ℝ
  material : MaterialType

/-- Ray-sphere intersection, after `impl Hitable for Sphere` in src/main.rs. -/
def Sphere.hit (s : Sphere) (ray : Ray) (t_min : ℝ) (t_max : WithTop ℝ) :
    Option HitRecord :=
  let oc := ray.origin - s.position
  let a := ray.dir.dot ray.dir
  let b := 2 * oc.dot ray.dir
  let c := oc.dot oc - s.radius * s.radius
  let discriminant := b * b - 4 * a * c
  if discriminant < 0 then none
  else
    let root := Real.sqrt discriminant
    let t1 := (-b - root) / (2 * a)
    let t2 := (-b + root) / (2 * a)
    let tsel : Option ℝ :=
      if (t1 : WithTop ℝ) < t_max ∧ t1 > t_min then some t1
      else if (t2 : WithTop ℝ) < t_max ∧ t2 > t_min then some t2
      else none
    match tsel with
    | none => none
    | some t =>
      let normal := ray.at t - s.position
      some (HitRecord.new (ray.at t) normal (t : WithTop ℝ)
        (decide (ray.dir.dot normal < 0)) s.material)

/-- One bundle of random draws: the angle and height feeding
`random_in_unit_sphere`, and the uniform draw of `random_01`. -/
structure RandDraws where
  a : ℝ
  z : ℝ
  u : ℝ

/-- Material scattering, after `impl Material for MaterialType` in
src/main.rs, with the random draws passed explicitly. -/
def MaterialType.scatter (m : MaterialType) (ray : Ray) (rec : HitRecord)
    (rnd : RandDraws) : Option (Vec3 × Ray) :=
  match m with
  | .Lambertian albedo =>
      let scatter_direction := rec.normal + random_in_hemisphere rnd.a rnd.z rec.normal
      let scattered := Ray.mk rec.position scatter_direction
      let attenuation := albedo
      some (attenuation, scattered)
  | .Metal albedo fuzziness =>
      let reflected := reflect ray.dir.unit rec.normal
      let scattered := Ray.mk rec.position
        (reflected + fuzziness * random_in_hemisphere rnd.a rnd.z rec.normal)
      let attenuation := albedo
      if scattered.dir.dot rec.normal > 0 then some (attenuation, scattered)
      else none
  | .Dialectric refractive_index =>
      let attenuation : Vec3 := ⟨1, 1, 1⟩
      let etai_over_etat := if rec.front_face then 1 / refractive_index
        else refractive_index
      let unit_direction := ray.dir.unit
      let cos_theta := min (-(unit_direction.dot rec.normal)) 1
      let sin_theta := Real.sqrt (1 - cos_theta * cos_theta)
      if etai_over_etat * sin_theta > 1 then
        let reflected := reflect unit_direction rec.normal
        let scattered := Ray.mk rec.position reflected
        some (attenuation, scattered)
      else if rnd.u < schlick cos_theta etai_over_etat then
        let reflected := reflect unit_direction rec.normal
        let scattered := Ray.mk rec.position reflected
        some (attenuation, scattered)
      else
        let refracted := refract unit_direction rec.normal etai_over_etat
        let scattered := Ray.mk rec.position refracted
        some (attenuation, scattered)

/-- The record `ray_color` seeds its nearest-hit scan with: distance
`f64::INFINITY`, magenta Lambertian material. -/
def initial_record : HitRecord :=
  HitRecord.new ⟨0, 0, 0⟩ ⟨0, 0, 0⟩ ⊤ false (.Lambertian ⟨1.0, 0.0, 1.0⟩)

/-- The nearest-hit loop of `ray_color` in src/main.rs: a linear scan that
replaces the current closest record exactly when the new hit is strictly
closer. -/
def closest_hit (objects : List Sphere) (ray : Ray) (t_min : ℝ)
    (t_max : WithTop ℝ) (init : HitRecord) : HitRecord :=
  objects.foldl (fun close object =>
    match Sphere.hit object ray t_min t_max with
    | some record => if record.t < close.t then record else close
    | none => close) init

/-- Recursive radiance estimator, after `ray_color` in src/main.rs.  The
stream `rand` supplies the random draws consumed at each recursion depth. -/
def ray_color (rand : ℤ → RandDraws) (objects : List Sphere) (ray : Ray)
    (depth : ℤ) : Vec3 :=
  if h : depth ≤ 0 then ⟨0, 0, 0⟩
  else
    let closest := closest_hit objects ray 0.0001 ⊤ initial_record
    if closest.t < ⊤ then
      match closest.material.scatter ray closest (rand depth) with
      | some (attenuation, scattered) =>
          attenuation * ray_color rand objects scattered (depth - 1)
      | none => ⟨0, 0, 0⟩
    else
      let unit_vec := ray.dir.unit
      let t := 0.5 * (unit_vec.y + 1.0)
      (⟨1.0, 1.0, 1.0⟩ : Vec3) * (1 - t) + (⟨0.5, 0.7, 1.0⟩ : Vec3) * t
termination_by depth.toNat
decreasing_by
  simp only [not_le] at h
  omega

/-- Rust saturating float-to-u8 cast `x as u8`, restricted to the values the
pipeline produces: truncation toward zero, saturating at 0 and 255. -/
def f64_as_u8 (x : ℝ) : ℕ := min 255 (Int.toNat ⌊x⌋)

/-- The per-channel output transform of `main` in src/main.rs: gamma square
root, clamp into `[0, 0.9999]`, scale by `255.9`, cast to `u8`. -/
def output_transform (x : ℝ) : ℕ :=
  f64_as_u8 (255.9 * clamp (Real.sqrt x) 0 0.9999)

end

noncomputable section

/-! ## Componentwise simp interface for the vector operations -/

@[simp] lemma Vec3.add_mk (a b c d e f : ℝ) :
    (Vec3.mk a b c) + (Vec3.mk d e f) = ⟨a + d, b + e, c + f⟩ := rfl

@[simp] lemma Vec3.sub_mk (a b c d e f : ℝ) :
    (Vec3.mk a b c) - (Vec3.mk d e f) = ⟨a - d, b - e, c - f⟩ := rfl

@[simp] lemma Vec3.neg_mk (a b c : ℝ) :
    -(Vec3.mk a b c) = ⟨-a, -b, -c⟩ := rfl

@[simp] lemma Vec3.mul_mk (a b c d e f : ℝ) :
    (Vec3.mk a b c) * (Vec3.mk d e f) = ⟨a * d, b * e, c * f⟩ := rfl

@[simp] lemma Vec3.mk_hmul (a b c t : ℝ) :
    (Vec3.mk a b c) * t = ⟨a * t, b * t, c * t⟩ := rfl

@[simp] lemma Vec3.hmul_mk (a b c t : ℝ) :
    t * (Vec3.mk a b c) = ⟨a * t, b * t, c * t⟩ := rfl

@[simp] lemma Vec3.mk_hdiv (a b c t : ℝ) :
    (Vec3.mk a b c) / t = ⟨a * (1 / t), b * (1 / t), c * (1 / t)⟩ := rfl

@[simp] lemma Vec3.dot_mk (a b c d e f : ℝ) :
    (Vec3.mk a b c).dot ⟨d, e, f⟩ = a * d + b * e + c * f := rfl

@[simp] lemma Vec3.length_squared_mk (a b c : ℝ) :
    (Vec3.mk a b c).length_squared = a * a + b * b + c * c := rfl

@[simp] lemma Vec3.length_mk (a b c : ℝ) :
    (Vec3.mk a b c).length = Real.sqrt (a * a + b * b + c * c) := rfl

@[simp] lemma Vec3.mult_float_mk (a b c t : ℝ) :
    (Vec3.mk a b c).mult_float t = ⟨a * t, b * t, c * t⟩ := rfl

@[simp] lemma Vec3.div_mk (a b c t : ℝ) :
    (Vec3.mk a b c).div t = ⟨a * (1 / t), b * (1 / t), c * (1 / t)⟩ := rfl

@[simp] lemma Vec3.unit_mk (a b c : ℝ) :
    (Vec3.mk a b c).unit =
      ⟨a * (1 / Real.sqrt (a * a + b * b + c * c)),
       b * (1 / Real.sqrt (a * a + b * b + c * c)),
       c * (1 / Real.sqrt (a * a + b * b + c * c))⟩ := rfl

@[simp] lemma Ray.at_mk (o d : Vec3) (t : ℝ) :
    Ray.at ⟨o, d⟩ t = o + d * t := rfl

/-! ## Geometry lemmas about the vector algebra -/

lemma Vec3.length_squared_nonneg (v : Vec3) : 0 ≤ v.length_squared := by
  have hx := mul_self_nonneg v.x
  have hy := mul_self_nonneg v.y
  have hz := mul_self_nonneg v.z
  unfold Vec3.length_squared
  linarith

lemma Vec3.length_nonneg (v : Vec3) : 0 ≤ v.length := Real.sqrt_nonneg _

lemma Vec3.length_mul_self (v : Vec3) : v.length * v.length = v.length_squared :=
  Real.mul_self_sqrt v.length_squared_nonneg

lemma Vec3.length_squared_eq_zero_iff (v : Vec3) :
    v.length_squared = 0 ↔ v = ⟨0, 0, 0⟩ := by
  obtain ⟨x, y, z⟩ := v
  simp only [Vec3.length_squared_mk, Vec3.mk.injEq]
  constructor
  · intro h
    have hx := mul_self_nonneg x
    have hy := mul_self_nonneg y
    have hz := mul_self_nonneg z
    refine ⟨?_, ?_, ?_⟩ <;> nlinarith
  · rintro ⟨rfl, rfl, rfl⟩
    ring

lemma Vec3.length_eq_zero_iff (v : Vec3) : v.length = 0 ↔ v = ⟨0, 0, 0⟩ := by
  rw [Vec3.length, Real.sqrt_eq_zero v.length_squared_nonneg,
    Vec3.length_squared_eq_zero_iff]

lemma Vec3.length_pos (v : Vec3) (h : v ≠ ⟨0, 0, 0⟩) : 0 < v.length := by
  rcases lt_or_eq_of_le v.length_nonneg with hlt | heq
  · exact hlt
  · exact absurd (v.length_eq_zero_iff.mp heq.symm) h

lemma Vec3.neg_length (v : Vec3) : (-v).length = v.length := by
  obtain ⟨x, y, z⟩ := v
  simp only [Vec3.neg_mk, Vec3.length_mk]
  ring_nf

lemma Vec3.unit_eq_mult_float (v : Vec3) : v.unit = v.mult_float (1 / v.length) := rfl

lemma Vec3.length_mult_float (v : Vec3) (t : ℝ) :
    (v.mult_float t).length = |t| * v.length := by
  obtain ⟨x, y, z⟩ := v
  simp only [Vec3.mult_float_mk, Vec3.length_mk]
  have harg : x * t * (x * t) + y * t * (y * t) + z * t * (z * t) =
      t ^ 2 * (x * x + y * y + z * z) := by ring
  rw [harg, Real.sqrt_mul (sq_nonneg t), Real.sqrt_sq_eq_abs]

lemma Vec3.length_unit (v : Vec3) (h : v ≠ ⟨0, 0, 0⟩) : v.unit.length = 1 := by
  have hpos := v.length_pos h
  rw [Vec3.unit_eq_mult_float, Vec3.length_mult_float,
    abs_of_pos (by positivity : (0 : ℝ) < 1 / v.length)]
  field_simp

lemma Vec3.dot_mult_float_right (v w : Vec3) (t : ℝ) :
    v.dot (w.mult_float t) = t * v.dot w := by
  obtain ⟨a, b, c⟩ := v; obtain ⟨d, e, f⟩ := w
  simp only [Vec3.mult_float_mk, Vec3.dot_mk]
  ring

lemma Vec3.dot_neg_right (v w : Vec3) : v.dot (-w) = -(v.dot w) := by
  obtain ⟨a, b, c⟩ := v; obtain ⟨d, e, f⟩ := w
  simp only [Vec3.neg_mk, Vec3.dot_mk]
  ring

lemma Vec3.dot_neg_left (v w : Vec3) : (-v).dot w = -(v.dot w) := by
  obtain ⟨a, b, c⟩ := v; obtain ⟨d, e, f⟩ := w
  simp only [Vec3.neg_mk, Vec3.dot_mk]
  ring

lemma Vec3.unit_neg (v : Vec3) : (-v).unit = -(v.unit) := by
  rw [Vec3.unit_eq_mult_float, Vec3.unit_eq_mult_float, Vec3.neg_length]
  obtain ⟨x, y, z⟩ := v
  simp only [Vec3.neg_mk, Vec3.mult_float_mk, Vec3.mk.injEq]
  refine ⟨by ring, by ring, by ring⟩

lemma Vec3.dot_sq_le (v w : Vec3) :
    (v.dot w) ^ 2 ≤ v.length_squared * w.length_squared := by
  obtain ⟨a, b, c⟩ := v; obtain ⟨d, e, f⟩ := w
  simp only [Vec3.dot_mk, Vec3.length_squared_mk]
  nlinarith [sq_nonneg (a * e - b * d), sq_nonneg (a * f - c * d),
    sq_nonneg (b * f - c * e)]

lemma sqrt_four : Real.sqrt 4 = 2 := by
  rw [show (4 : ℝ) = 2 ^ 2 by norm_num, Real.sqrt_sq (by norm_num : (0 : ℝ) ≤ 2)]

end

noncomputable section

/-! ## Inversion and unfolding lemmas for the intersection and the scan -/

@[simp] lemma HitRecord.new_position (p n : Vec3) (t : WithTop ℝ) (ff : Bool)
    (m : MaterialType) : (HitRecord.new p n t ff m).position = p := rfl

@[simp] lemma HitRecord.new_t (p n : Vec3) (t : WithTop ℝ) (ff : Bool)
    (m : MaterialType) : (HitRecord.new p n t ff m).t = t := rfl

@[simp] lemma HitRecord.new_front_face (p n : Vec3) (t : WithTop ℝ) (ff : Bool)
    (m : MaterialType) : (HitRecord.new p n t ff m).front_face = ff := rfl

@[simp] lemma HitRecord.new_material (p n : Vec3) (t : WithTop ℝ) (ff : Bool)
    (m : MaterialType) : (HitRecord.new p n t ff m).material = m := rfl

lemma HitRecord.new_normal (p n : Vec3) (t : WithTop ℝ) (ff : Bool)
    (m : MaterialType) :
    (HitRecord.new p n t ff m).normal = (if ff then n else -n).unit := by
  cases ff <;> rfl

lemma Sphere.hit_inversion (s : Sphere) (ray : Ray) (t_min : ℝ) (t_max : WithTop ℝ)
    (rec : HitRecord) (h : Sphere.hit s ray t_min t_max = some rec) :
    ∃ t : ℝ, rec = HitRecord.new (ray.at t) (ray.at t - s.position) (t : WithTop ℝ)
      (decide (ray.dir.dot (ray.at t - s.position) < 0)) s.material := by
  simp only [Sphere.hit] at h
  split at h
  · exact absurd h (by simp)
  · split at h
    · exact absurd h (by simp)
    · rename_i t heq
      exact ⟨t, (Option.some.injEq _ _ ▸ h).symm⟩

lemma Sphere.hit_t_lt_top (s : Sphere) (ray : Ray) (t_min : ℝ) (t_max : WithTop ℝ)
    (rec : HitRecord) (h : Sphere.hit s ray t_min t_max = some rec) :
    rec.t < ⊤ := by
  obtain ⟨t, rfl⟩ := Sphere.hit_inversion s ray t_min t_max rec h
  simp only [HitRecord.new_t]
  exact WithTop.coe_lt_top t

lemma fold_min_spec (l : List HitRecord) (init : HitRecord) :
    (l.foldl (fun close rec => if rec.t < close.t then rec else close) init = init ∧
      ∀ x ∈ l, init.t ≤ x.t) ∨
    (∃ l₁ l₂, l = l₁ ++ (l.foldl (fun close rec => if rec.t < close.t then rec else close) init) :: l₂ ∧
      (l.foldl (fun close rec => if rec.t < close.t then rec else close) init).t < init.t ∧
      (∀ x ∈ l₁, (l.foldl (fun close rec => if rec.t < close.t then rec else close) init).t < x.t) ∧
      (∀ x ∈ l, (l.foldl (fun close rec => if rec.t < close.t then rec else close) init).t ≤ x.t)) := by
  induction l generalizing init with
  | nil => exact Or.inl ⟨rfl, by simp⟩
  | cons x xs ih =>
    simp only [List.foldl_cons]
    by_cases hx : x.t < init.t
    · rw [if_pos hx]
      rcases ih x with ⟨heq, hall⟩ | ⟨l₁, l₂, heq, hlt, hbefore, hall⟩
      · refine Or.inr ⟨[], xs, ?_, ?_, ?_, ?_⟩
        · rw [heq]; rfl
        · rw [heq]; exact hx
        · simp
        · intro y hy
          rw [heq]
          rcases List.mem_cons.mp hy with rfl | hy2
          · exact le_refl _
          · exact hall y hy2
      · refine Or.inr ⟨x :: l₁, l₂, ?_, ?_, ?_, ?_⟩
        · rw [List.cons_append, ← heq]
        · exact lt_trans hlt hx
        · intro y hy
          rcases List.mem_cons.mp hy with rfl | hy2
          · exact hlt
          · exact hbefore y hy2
        · intro y hy
          rcases List.mem_cons.mp hy with rfl | hy2
          · exact le_of_lt hlt
          · exact hall y hy2
    · rw [if_neg hx]
      push_neg at hx
      rcases ih init with ⟨heq, hall⟩ | ⟨l₁, l₂, heq, hlt, hbefore, hall⟩
      · refine Or.inl ⟨heq, ?_⟩
        intro y hy
        rcases List.mem_cons.mp hy with rfl | hy2
        · exact hx
        · exact hall y hy2
      · refine Or.inr ⟨x :: l₁, l₂, ?_, ?_, ?_, ?_⟩
        · rw [List.cons_append, ← heq]
        · exact hlt
        · intro y hy
          rcases List.mem_cons.mp hy with rfl | hy2
          · exact lt_of_lt_of_le hlt hx
          · exact hbefore y hy2
        · intro y hy
          rcases List.mem_cons.mp hy with rfl | hy2
          · exact le_trans (le_of_lt hlt) hx
          · exact hall y hy2

lemma closest_hit_eq_fold (objects : List Sphere) (ray : Ray) (t_min : ℝ)
    (t_max : WithTop ℝ) (init : HitRecord) :
    closest_hit objects ray t_min t_max init =
      (objects.filterMap (fun o => Sphere.hit o ray t_min t_max)).foldl
        (fun close record => if record.t < close.t then record else close) init := by
  induction objects generalizing init with
  | nil => rfl
  | cons o os ih =>
    simp only [closest_hit, List.foldl_cons, List.filterMap_cons] at *
    cases h : Sphere.hit o ray t_min t_max with
    | none => simp only [h]; exact ih init
    | some r => simp only [h, List.foldl_cons]; exact ih _

lemma closest_hit_all_none (objects : List Sphere) (ray : Ray) (t_min : ℝ)
    (t_max : WithTop ℝ) (init : HitRecord)
    (h : ∀ o ∈ objects, Sphere.hit o ray t_min t_max = none) :
    closest_hit objects ray t_min t_max init = init := by
  induction objects with
  | nil => rfl
  | cons o os ih =>
    simp only [closest_hit, List.foldl_cons] at *
    rw [h o (List.mem_cons_self o os)]
    exact ih fun x hx => h x (List.mem_cons_of_mem o hx)

@[simp] lemma initial_record_t : initial_record.t = ⊤ := rfl

lemma ray_color_nonpos (rand : ℤ → RandDraws) (objects : List Sphere) (ray : Ray)
    (depth : ℤ) (h : depth ≤ 0) : ray_color rand objects ray depth = ⟨0, 0, 0⟩ := by
  rw [ray_color]
  simp [h]

lemma ray_color_pos (rand : ℤ → RandDraws) (objects : List Sphere) (ray : Ray)
    (depth : ℤ) (h : 0 < depth) :
    ray_color rand objects ray depth =
      (let closest := closest_hit objects ray 0.0001 ⊤ initial_record
      if closest.t < ⊤ then
        match closest.material.scatter ray closest (rand depth) with
        | some (attenuation, scattered) =>
            attenuation * ray_color rand objects scattered (depth - 1)
        | none => ⟨0, 0, 0⟩
      else
        let unit_vec := ray.dir.unit
        let t := 0.5 * (unit_vec.y + 1.0)
        (⟨1.0, 1.0, 1.0⟩ : Vec3) * (1 - t) + (⟨0.5, 0.7, 1.0⟩ : Vec3) * t) := by
  rw [ray_color]
  simp [show ¬ depth ≤ 0 by omega]

/-! ## A concrete intersection, used by the witnesses: the ray from the origin
along the z axis against a sphere of squared radius one centered at distance
two. -/

lemma hit_example (radius : ℝ) (m : MaterialType) (hr : radius * radius = 1) :
    Sphere.hit ⟨⟨0, 0, 2⟩, radius, m⟩ ⟨⟨0, 0, 0⟩, ⟨0, 0, 1⟩⟩ 0.0001 ⊤ =
      some ⟨⟨0, 0, 1⟩, ⟨0, 0, -1⟩, ((1 : ℝ) : WithTop ℝ), true, m⟩ := by
  unfold Sphere.hit
  norm_num [hr, HitRecord.new]
  rw [sqrt_four]
  norm_num [HitRecord.new, WithTop.coe_lt_top]

lemma closest_hit_example (radius : ℝ) (m : MaterialType) (hr : radius * radius = 1) :
    closest_hit [⟨⟨0, 0, 2⟩, radius, m⟩] ⟨⟨0, 0, 0⟩, ⟨0, 0, 1⟩⟩ 0.0001 ⊤ initial_record =
      ⟨⟨0, 0, 1⟩, ⟨0, 0, -1⟩, ((1 : ℝ) : WithTop ℝ), true, m⟩ := by
  simp only [closest_hit, List.foldl_cons, List.foldl_nil, hit_example radius m hr]
  rw [if_pos]
  rw [initial_record_t]
  exact WithTop.coe_lt_top 1

end

noncomputable section

/-! ## Further vector algebra lemmas -/

lemma Vec3.sub_eq_zero_iff (v w : Vec3) : v - w = ⟨0, 0, 0⟩ ↔ v = w := by
  obtain ⟨a, b, c⟩ := v; obtain ⟨d, e, f⟩ := w
  simp only [Vec3.sub_mk, Vec3.mk.injEq]
  constructor
  · rintro ⟨h1, h2, h3⟩
    exact ⟨by linarith, by linarith, by linarith⟩
  · rintro ⟨rfl, rfl, rfl⟩
    exact ⟨by ring, by ring, by ring⟩

lemma Vec3.neg_eq_zero_iff (v : Vec3) : -v = ⟨0, 0, 0⟩ ↔ v = ⟨0, 0, 0⟩ := by
  obtain ⟨a, b, c⟩ := v
  simp only [Vec3.neg_mk, Vec3.mk.injEq]
  constructor
  · rintro ⟨h1, h2, h3⟩
    exact ⟨by linarith, by linarith, by linarith⟩
  · rintro ⟨rfl, rfl, rfl⟩
    exact ⟨by ring, by ring, by ring⟩

lemma Vec3.dot_comm (v w : Vec3) : v.dot w = w.dot v := by
  obtain ⟨a, b, c⟩ := v; obtain ⟨d, e, f⟩ := w
  simp only [Vec3.dot_mk]
  ring

lemma Vec3.neg_length_squared (v : Vec3) : (-v).length_squared = v.length_squared := by
  obtain ⟨a, b, c⟩ := v
  simp only [Vec3.neg_mk, Vec3.length_squared_mk]
  ring

lemma Vec3.length_squared_add (v w : Vec3) :
    (v + w).length_squared = v.length_squared + 2 * v.dot w + w.length_squared := by
  obtain ⟨a, b, c⟩ := v; obtain ⟨d, e, f⟩ := w
  simp only [Vec3.add_mk, Vec3.length_squared_mk, Vec3.dot_mk]
  ring

lemma Vec3.length_squared_mult_float (v : Vec3) (t : ℝ) :
    (v.mult_float t).length_squared = t * t * v.length_squared := by
  obtain ⟨a, b, c⟩ := v
  simp only [Vec3.mult_float_mk, Vec3.length_squared_mk]
  ring

lemma random_in_unit_sphere_lsq (a z : ℝ) (hz1 : -1 ≤ z) (hz2 : z ≤ 1) :
    (random_in_unit_sphere a z).length_squared = 1 := by
  have harg : 0 ≤ 1 - z * z := by nlinarith
  simp only [random_in_unit_sphere, Vec3.length_squared_mk]
  have hs : Real.sqrt (1 - z * z) * Real.sqrt (1 - z * z) = 1 - z * z :=
    Real.mul_self_sqrt harg
  have hcs := Real.sin_sq_add_cos_sq a
  nlinarith [hs, hcs]

/-! ## Claim C1 -/

/-- Claim C1 (amended): for every ray that hits no object in the scene and
every recursion depth at least 1, `ray_color` returns exactly the sky gradient
`white*(1-t) + skyblue*t` with `t = 0.5*(unit(ray.direction).y + 1)`.  The
original claim allowed every depth; the depth cutoff returns black before the
sky branch is reached, so `0 < depth` is required. -/
theorem ray_color_no_hit_sky (rand : ℤ → RandDraws) (objects : List Sphere) (ray : Ray)
    (depth : ℤ) (hdepth : 0 < depth)
    (hmiss : ∀ o ∈ objects, Sphere.hit o ray 0.0001 ⊤ = none) :
    ray_color rand objects ray depth =
      (⟨1.0, 1.0, 1.0⟩ : Vec3) * (1 - 0.5 * (ray.dir.unit.y + 1.0)) +
        (⟨0.5, 0.7, 1.0⟩ : Vec3) * (0.5 * (ray.dir.unit.y + 1.0)) := by
  rw [ray_color_pos rand objects ray depth hdepth]
  simp only [closest_hit_all_none objects ray _ _ initial_record hmiss, initial_record_t,
    lt_self_iff_false, if_false]

/-- Witness for claim C1: the sky gradient is returned at depth 1 for a ray in
the empty scene. -/
theorem C1_witness :
    (0 : ℤ) < 1 ∧
    ray_color (fun _ => ⟨0, 0, 0⟩) [] ⟨⟨0, 0, 0⟩, ⟨0, 0, 1⟩⟩ 1 =
      (⟨1.0, 1.0, 1.0⟩ : Vec3) * (1 - 0.5 * ((Ray.mk ⟨0, 0, 0⟩ ⟨0, 0, 1⟩).dir.unit.y + 1.0)) +
        (⟨0.5, 0.7, 1.0⟩ : Vec3) * (0.5 * ((Ray.mk ⟨0, 0, 0⟩ ⟨0, 0, 1⟩).dir.unit.y + 1.0)) :=
  ⟨by norm_num,
    ray_color_no_hit_sky (fun _ => ⟨0, 0, 0⟩) [] ⟨⟨0, 0, 0⟩, ⟨0, 0, 1⟩⟩ 1 (by norm_num)
      (by simp)⟩

/-- Counterexample to claim C1 as stated: at depth 0 a ray that hits nothing
(the scene is empty) yields black, not the sky gradient. -/
theorem C1_counterexample :
    ¬ (ray_color (fun _ => ⟨0, 0, 0⟩) [] ⟨⟨0, 0, 0⟩, ⟨0, 0, 1⟩⟩ 0 =
      (⟨1.0, 1.0, 1.0⟩ : Vec3) * (1 - 0.5 * ((Ray.mk ⟨0, 0, 0⟩ ⟨0, 0, 1⟩).dir.unit.y + 1.0)) +
        (⟨0.5, 0.7, 1.0⟩ : Vec3) * (0.5 * ((Ray.mk ⟨0, 0, 0⟩ ⟨0, 0, 1⟩).dir.unit.y + 1.0))) := by
  rw [ray_color_nonpos _ _ _ _ (le_refl 0)]
  norm_num [Vec3.unit_mk, Real.sqrt_one, Vec3.mk_hmul, Vec3.add_mk, Vec3.mk.injEq]

/-! ## Claim C2 -/

/-- Claim C2: `ray_color` with `depth ≤ 0` returns black, and for every ray
whose nearest hit carries a Lambertian material, `ray_color` at depth exactly 1
returns black, because the Lambertian always scatters and the recursive call at
depth 0 returns black, so the result is `attenuation * (0,0,0)`. -/
theorem ray_color_depth_cutoff (rand : ℤ → RandDraws) (objects : List Sphere) (ray : Ray) :
    (∀ depth : ℤ, depth ≤ 0 → ray_color rand objects ray depth = ⟨0, 0, 0⟩) ∧
    (∀ albedo : Vec3,
      (closest_hit objects ray 0.0001 ⊤ initial_record).material = .Lambertian albedo →
      (closest_hit objects ray 0.0001 ⊤ initial_record).t < ⊤ →
      ray_color rand objects ray 1 = ⟨0, 0, 0⟩) := by
  refine ⟨fun depth h => ray_color_nonpos rand objects ray depth h, fun albedo hmat ht => ?_⟩
  rw [ray_color_pos rand objects ray 1 (by norm_num)]
  simp only [ht, if_true, hmat, MaterialType.scatter]
  rw [show (1 : ℤ) - 1 = 0 by norm_num, ray_color_nonpos rand objects _ 0 (le_refl 0)]
  obtain ⟨ax, ay, az⟩ := albedo
  simp only [Vec3.mul_mk]
  norm_num

/-- Witness for claim C2: a one-sphere Lambertian scene rendered at depth 1
yields black. -/
theorem C2_witness :
    (closest_hit [⟨⟨0, 0, 2⟩, 1, .Lambertian ⟨0.5, 0.5, 0.5⟩⟩] ⟨⟨0, 0, 0⟩, ⟨0, 0, 1⟩⟩
        0.0001 ⊤ initial_record).material = .Lambertian ⟨0.5, 0.5, 0.5⟩ ∧
    (closest_hit [⟨⟨0, 0, 2⟩, 1, .Lambertian ⟨0.5, 0.5, 0.5⟩⟩] ⟨⟨0, 0, 0⟩, ⟨0, 0, 1⟩⟩
        0.0001 ⊤ initial_record).t < ⊤ ∧
    ray_color (fun _ => ⟨0, 0, 0⟩) [⟨⟨0, 0, 2⟩, 1, .Lambertian ⟨0.5, 0.5, 0.5⟩⟩]
      ⟨⟨0, 0, 0⟩, ⟨0, 0, 1⟩⟩ 1 = ⟨0, 0, 0⟩ := by
  have hc := closest_hit_example 1 (.Lambertian ⟨0.5, 0.5, 0.5⟩) (by norm_num)
  refine ⟨by rw [hc], by rw [hc]; exact WithTop.coe_lt_top 1, ?_⟩
  exact (ray_color_depth_cutoff (fun _ => ⟨0, 0, 0⟩) _ _).2 ⟨0.5, 0.5, 0.5⟩
    (by rw [hc]) (by rw [hc]; exact WithTop.coe_lt_top 1)

/-! ## Claim C3 -/

/-- Claim C3 (amended): in `Sphere::hit` the outward normal handed to the
`HitRecord` constructor is `hit_point - center` with no division by the
radius, so its sign does not follow the sign of the radius; `front_face` is
computed as `dot(ray.direction, hit_point - center) < 0` against that
undivided normal. -/
theorem sphere_hit_outward_normal (s : Sphere) (ray : Ray) (t_min : ℝ)
    (t_max : WithTop ℝ) (rec : HitRecord)
    (h : Sphere.hit s ray t_min t_max = some rec) :
    rec.front_face = decide (ray.dir.dot (rec.position - s.position) < 0) ∧
    rec.normal = (if rec.front_face then rec.position - s.position
      else -(rec.position - s.position)).unit := by
  obtain ⟨t, rfl⟩ := Sphere.hit_inversion s ray t_min t_max rec h
  exact ⟨rfl, rfl⟩

/-- Witness for claim C3 at the concrete unit-sphere intersection. -/
theorem C3_witness :
    ((⟨⟨0, 0, 1⟩, ⟨0, 0, -1⟩, ((1 : ℝ) : WithTop ℝ), true,
        MaterialType.Lambertian ⟨0.5, 0.5, 0.5⟩⟩ : HitRecord).front_face =
      decide ((Vec3.mk 0 0 1).dot
        ((⟨⟨0, 0, 1⟩, ⟨0, 0, -1⟩, ((1 : ℝ) : WithTop ℝ), true,
          MaterialType.Lambertian ⟨0.5, 0.5, 0.5⟩⟩ : HitRecord).position - ⟨0, 0, 2⟩) < 0)) ∧
    ((⟨⟨0, 0, 1⟩, ⟨0, 0, -1⟩, ((1 : ℝ) : WithTop ℝ), true,
        MaterialType.Lambertian ⟨0.5, 0.5, 0.5⟩⟩ : HitRecord).normal =
      (if (⟨⟨0, 0, 1⟩, ⟨0, 0, -1⟩, ((1 : ℝ) : WithTop ℝ), true,
          MaterialType.Lambertian ⟨0.5, 0.5, 0.5⟩⟩ : HitRecord).front_face then
        (⟨⟨0, 0, 1⟩, ⟨0, 0, -1⟩, ((1 : ℝ) : WithTop ℝ), true,
          MaterialType.Lambertian ⟨0.5, 0.5, 0.5⟩⟩ : HitRecord).position - ⟨0, 0, 2⟩
      else
        -((⟨⟨0, 0, 1⟩, ⟨0, 0, -1⟩, ((1 : ℝ) : WithTop ℝ), true,
          MaterialType.Lambertian ⟨0.5, 0.5, 0.5⟩⟩ : HitRecord).position - ⟨0, 0, 2⟩)).unit) :=
  sphere_hit_outward_normal ⟨⟨0, 0, 2⟩, 1, .Lambertian ⟨0.5, 0.5, 0.5⟩⟩
    ⟨⟨0, 0, 0⟩, ⟨0, 0, 1⟩⟩ 0.0001 ⊤ _ (hit_example 1 _ (by norm_num))

/-- Counterexample to claim C3 as stated: for a sphere of radius `-1` the code
reports `front_face = true`, while the claimed formula
`dot(dir, (hit_point - center) / radius) < 0` evaluates to false at the same
hit. -/
theorem sphere_hit_radius_sign_counterexample :
    ∃ rec : HitRecord,
      Sphere.hit ⟨⟨0, 0, 2⟩, -1, .Lambertian ⟨0.5, 0.5, 0.5⟩⟩ ⟨⟨0, 0, 0⟩, ⟨0, 0, 1⟩⟩
          0.0001 ⊤ = some rec ∧
      rec.front_face = true ∧
      ¬ ((Vec3.mk 0 0 1).dot ((rec.position - ⟨0, 0, 2⟩).div (-1)) < 0) := by
  refine ⟨_, hit_example (-1) _ (by norm_num), rfl, ?_⟩
  norm_num [Vec3.sub_mk, Vec3.div_mk, Vec3.dot_mk]

/-! ## Claim C4 -/

/-- Claim C4: every record produced by a successful `Sphere::hit` on a ray
with a hit point distinct from the center stores a unit-length normal that
opposes the incoming ray direction, and the flip plus re-normalization happen
inside the `HitRecord` constructor. -/
theorem hit_record_normal_invariant (s : Sphere) (ray : Ray) (t_min : ℝ)
    (t_max : WithTop ℝ) (rec : HitRecord)
    (h : Sphere.hit s ray t_min t_max = some rec)
    (_hdir : ray.dir ≠ ⟨0, 0, 0⟩) (hpos : rec.position ≠ s.position) :
    (∀ (p n : Vec3) (t : WithTop ℝ) (ff : Bool) (m : MaterialType),
      (HitRecord.new p n t ff m).normal = (if ff then n else -n).unit) ∧
    rec.normal.length = 1 ∧ ray.dir.dot rec.normal ≤ 0 := by
  refine ⟨fun p n t ff m => HitRecord.new_normal p n t ff m, ?_⟩
  obtain ⟨t, rfl⟩ := Sphere.hit_inversion s ray t_min t_max rec h
  simp only [HitRecord.new_position] at hpos
  have hn0 : ray.at t - s.position ≠ ⟨0, 0, 0⟩ := fun hcontra =>
    hpos ((Vec3.sub_eq_zero_iff _ _).mp hcontra)
  rw [HitRecord.new_normal]
  cases hff : decide (ray.dir.dot (ray.at t - s.position) < 0) with
  | true =>
    have hlt := of_decide_eq_true hff
    have hlenpos := Vec3.length_pos _ hn0
    constructor
    · simp only [if_true]
      exact Vec3.length_unit _ hn0
    · simp only [if_true, Vec3.unit_eq_mult_float, Vec3.dot_mult_float_right]
      exact le_of_lt (mul_neg_of_pos_of_neg (by positivity) hlt)
  | false =>
    have hge : 0 ≤ ray.dir.dot (ray.at t - s.position) := not_lt.mp (of_decide_eq_false hff)
    have hn0n : -(ray.at t - s.position) ≠ ⟨0, 0, 0⟩ := fun hcontra =>
      hn0 ((Vec3.neg_eq_zero_iff _).mp hcontra)
    have hlenpos := Vec3.length_pos _ hn0
    constructor
    · simp only [if_false, Bool.false_eq_true]
      exact Vec3.length_unit _ hn0n
    · simp only [if_false, Bool.false_eq_true]
      rw [Vec3.unit_neg, Vec3.dot_neg_right, Vec3.unit_eq_mult_float,
        Vec3.dot_mult_float_right]
      have hprod : 0 ≤ 1 / (ray.at t - s.position).length * ray.dir.dot (ray.at t - s.position) :=
        mul_nonneg (by positivity) hge
      linarith

/-- Witness for claim C4 at the concrete unit-sphere intersection. -/
theorem C4_witness :
    ((⟨⟨0, 0, 1⟩, ⟨0, 0, -1⟩, ((1 : ℝ) : WithTop ℝ), true,
        MaterialType.Lambertian ⟨0.5, 0.5, 0.5⟩⟩ : HitRecord).normal.length = 1) ∧
    ((Vec3.mk 0 0 1).dot (⟨⟨0, 0, 1⟩, ⟨0, 0, -1⟩, ((1 : ℝ) : WithTop ℝ), true,
        MaterialType.Lambertian ⟨0.5, 0.5, 0.5⟩⟩ : HitRecord).normal ≤ 0) :=
  (hit_record_normal_invariant ⟨⟨0, 0, 2⟩, 1, .Lambertian ⟨0.5, 0.5, 0.5⟩⟩
    ⟨⟨0, 0, 0⟩, ⟨0, 0, 1⟩⟩ 0.0001 ⊤ _
    (hit_example 1 _ (by norm_num))
    (by norm_num [Vec3.mk.injEq])
    (by norm_num [Vec3.mk.injEq])).2

end

noncomputable section

/-! ## Claim C5 -/

/-- The discriminant computed in `Sphere::hit`: with `oc = origin - center`,
`a = dot(dir,dir)`, `b = 2*dot(oc,dir)`, `c = dot(oc,oc) - radius^2`, this is
`b*b - 4*a*c`. -/
def hit_discriminant (s : Sphere) (ray : Ray) : ℝ :=
  let oc := ray.origin - s.position
  let a := ray.dir.dot ray.dir
  let b := 2 * oc.dot ray.dir
  let c := oc.dot oc - s.radius * s.radius
  b * b - 4 * a * c

/-- The root `(-b - sqrt(discriminant)) / (2a)` computed in `Sphere::hit`. -/
def hit_t1 (s : Sphere) (ray : Ray) : ℝ :=
  let oc := ray.origin - s.position
  let a := ray.dir.dot ray.dir
  let b := 2 * oc.dot ray.dir
  (-b - Real.sqrt (hit_discriminant s ray)) / (2 * a)

/-- The root `(-b + sqrt(discriminant)) / (2a)` computed in `Sphere::hit`. -/
def hit_t2 (s : Sphere) (ray : Ray) : ℝ :=
  let oc := ray.origin - s.position
  let a := ray.dir.dot ray.dir
  let b := 2 * oc.dot ray.dir
  (-b + Real.sqrt (hit_discriminant s ray)) / (2 * a)

/-- Claim C5: `Sphere::hit` returns no hit when the discriminant
`b^2 - 4ac` is negative; otherwise it accepts `t1 = (-b - sqrt(disc))/(2a)`
when `t1` lies strictly inside `(t_min, t_max)`, else
`t2 = (-b + sqrt(disc))/(2a)` when `t2` lies strictly inside the interval,
else it reports no hit. -/
theorem sphere_hit_root_selection (s : Sphere) (ray : Ray) (t_min : ℝ)
    (t_max : WithTop ℝ) :
    (hit_discriminant s ray < 0 → Sphere.hit s ray t_min t_max = none) ∧
    (0 ≤ hit_discriminant s ray →
      (((hit_t1 s ray : ℝ) : WithTop ℝ) < t_max ∧ hit_t1 s ray > t_min →
        ∃ rec, Sphere.hit s ray t_min t_max = some rec ∧
          rec.t = ((hit_t1 s ray : ℝ) : WithTop ℝ)) ∧
      (¬ (((hit_t1 s ray : ℝ) : WithTop ℝ) < t_max ∧ hit_t1 s ray > t_min) →
        ((hit_t2 s ray : ℝ) : WithTop ℝ) < t_max ∧ hit_t2 s ray > t_min →
        ∃ rec, Sphere.hit s ray t_min t_max = some rec ∧
          rec.t = ((hit_t2 s ray : ℝ) : WithTop ℝ)) ∧
      (¬ (((hit_t1 s ray : ℝ) : WithTop ℝ) < t_max ∧ hit_t1 s ray > t_min) →
        ¬ (((hit_t2 s ray : ℝ) : WithTop ℝ) < t_max ∧ hit_t2 s ray > t_min) →
        Sphere.hit s ray t_min t_max = none)) := by
  refine ⟨fun h => ?_, fun h => ⟨fun h1 => ?_, fun h1 h2 => ?_, fun h1 h2 => ?_⟩⟩
  · simp only [hit_discriminant] at h
    simp only [Sphere.hit]
    rw [if_pos h]
  · simp only [hit_t1, hit_discriminant] at h1
    simp only [hit_discriminant] at h
    simp only [Sphere.hit]
    rw [if_neg (not_lt.mpr h), if_pos h1]
    exact ⟨_, rfl, rfl⟩
  · simp only [hit_t1, hit_discriminant] at h1
    simp only [hit_t2, hit_discriminant] at h2
    simp only [hit_discriminant] at h
    simp only [Sphere.hit]
    rw [if_neg (not_lt.mpr h), if_neg h1, if_pos h2]
    exact ⟨_, rfl, rfl⟩
  · simp only [hit_t1, hit_discriminant] at h1
    simp only [hit_t2, hit_discriminant] at h2
    simp only [hit_discriminant] at h
    simp only [Sphere.hit]
    rw [if_neg (not_lt.mpr h), if_neg h1, if_neg h2]

/-- Witness for claim C5: the unit sphere two units away is hit at the
smaller root `t1`. -/
theorem C5_witness :
    ∃ rec, Sphere.hit ⟨⟨0, 0, 2⟩, 1, .Lambertian ⟨0.5, 0.5, 0.5⟩⟩
        ⟨⟨0, 0, 0⟩, ⟨0, 0, 1⟩⟩ 0.0001 ⊤ = some rec ∧
      rec.t = ((hit_t1 ⟨⟨0, 0, 2⟩, 1, .Lambertian ⟨0.5, 0.5, 0.5⟩⟩
        ⟨⟨0, 0, 0⟩, ⟨0, 0, 1⟩⟩ : ℝ) : WithTop ℝ) := by
  have hd : hit_discriminant ⟨⟨0, 0, 2⟩, 1, .Lambertian ⟨0.5, 0.5, 0.5⟩⟩
      ⟨⟨0, 0, 0⟩, ⟨0, 0, 1⟩⟩ = 4 := by
    norm_num [hit_discriminant, Vec3.sub_mk, Vec3.dot_mk]
  have ht1 : hit_t1 ⟨⟨0, 0, 2⟩, 1, .Lambertian ⟨0.5, 0.5, 0.5⟩⟩
      ⟨⟨0, 0, 0⟩, ⟨0, 0, 1⟩⟩ = 1 := by
    simp only [hit_t1, hd]
    norm_num [sqrt_four, Vec3.sub_mk, Vec3.dot_mk]
  exact (sphere_hit_root_selection _ _ _ _).2 (by rw [hd]; norm_num) |>.1
    (by rw [ht1]; exact ⟨WithTop.coe_lt_top 1, by norm_num⟩)

/-! ## Claim C6 -/

/-- Claim C6: in the `Dialectric` arm of `scatter` the attenuation is always
`(1,1,1)`; when the total-internal-reflection test `eta*sin_theta > 1`
succeeds a reflection is returned before `refract` is reached; and whenever
that test fails (so `refract` is evaluated) the argument
`1 - length_squared(r_out_parallel)` of the square root inside `refract` is
non-negative, given a unit incoming direction and unit normal. -/
theorem dielectric_guard (refractive_index : ℝ) (ray : Ray) (rec : HitRecord)
    (rnd : RandDraws) (hior : 0 < refractive_index)
    (hdir : ray.dir.unit.length = 1) (hn : rec.normal.length = 1) :
    (∀ p ∈ (MaterialType.Dialectric refractive_index).scatter ray rec rnd,
      p.1 = ⟨1, 1, 1⟩) ∧
    ((if rec.front_face then 1 / refractive_index else refractive_index) *
        Real.sqrt (1 - min (-(ray.dir.unit.dot rec.normal)) 1 *
          min (-(ray.dir.unit.dot rec.normal)) 1) > 1 →
      (MaterialType.Dialectric refractive_index).scatter ray rec rnd =
        some (⟨1, 1, 1⟩, Ray.mk rec.position (reflect ray.dir.unit rec.normal))) ∧
    (¬ ((if rec.front_face then 1 / refractive_index else refractive_index) *
        Real.sqrt (1 - min (-(ray.dir.unit.dot rec.normal)) 1 *
          min (-(ray.dir.unit.dot rec.normal)) 1) > 1) →
      0 ≤ 1 - ((if rec.front_face then 1 / refractive_index else refractive_index) *
        (ray.dir.unit + ((-ray.dir.unit).dot rec.normal) * rec.normal)).length_squared) := by
  have hu_lsq : ray.dir.unit.length_squared = 1 := by
    have hm := ray.dir.unit.length_mul_self
    rw [hdir] at hm
    linarith
  have hn_lsq : rec.normal.length_squared = 1 := by
    have hm := rec.normal.length_mul_self
    rw [hn] at hm
    linarith
  have heta : 0 < (if rec.front_face then 1 / refractive_index else refractive_index) := by
    split_ifs
    · positivity
    · exact hior
  have hc2 : (ray.dir.unit.dot rec.normal) ^ 2 ≤ 1 := by
    have := Vec3.dot_sq_le ray.dir.unit rec.normal
    rw [hu_lsq, hn_lsq] at this
    linarith
  have hmin : min (-(ray.dir.unit.dot rec.normal)) 1 = -(ray.dir.unit.dot rec.normal) :=
    min_eq_left (by nlinarith)
  refine ⟨?_, fun htir => ?_, fun hguard => ?_⟩
  · intro p hp
    simp only [MaterialType.scatter] at hp
    split_ifs at hp <;>
      simp only [Option.mem_def, Option.some.injEq] at hp <;>
      rw [← hp]
  · simp only [MaterialType.scatter]
    rw [if_pos htir]
  · set c := ray.dir.unit.dot rec.normal with hc
    set eta := if rec.front_face then 1 / refractive_index else refractive_index with heta_def
    have harg : 0 ≤ 1 - c * c := by nlinarith
    have hs : Real.sqrt (1 - c * c) * Real.sqrt (1 - c * c) = 1 - c * c :=
      Real.mul_self_sqrt harg
    have hsn : 0 ≤ Real.sqrt (1 - c * c) := Real.sqrt_nonneg _
    rw [hmin] at hguard
    have hguard2 : eta * Real.sqrt (1 - -c * -c) ≤ 1 := not_lt.mp hguard
    have hneg : (1 : ℝ) - -c * -c = 1 - c * c := by ring
    rw [hneg] at hguard2
    have hprod_nonneg : 0 ≤ eta * Real.sqrt (1 - c * c) :=
      mul_nonneg (le_of_lt heta) hsn
    have hsq_le : eta * eta * (1 - c * c) ≤ 1 := by
      have h1 : eta * Real.sqrt (1 - c * c) * (eta * Real.sqrt (1 - c * c)) ≤ 1 := by
        nlinarith [hprod_nonneg, hguard2]
      have h2 : eta * Real.sqrt (1 - c * c) * (eta * Real.sqrt (1 - c * c)) =
          eta * eta * (Real.sqrt (1 - c * c) * Real.sqrt (1 - c * c)) := by ring
      rw [h2, hs] at h1
      exact h1
    have hinner : (ray.dir.unit + ((-ray.dir.unit).dot rec.normal) *
        rec.normal).length_squared = 1 - c * c := by
      rw [Vec3.dot_neg_left, ← hc]
      show (ray.dir.unit + rec.normal.mult_float (-c)).length_squared = 1 - c * c
      rw [Vec3.length_squared_add, Vec3.dot_mult_float_right,
        Vec3.length_squared_mult_float, hu_lsq, hn_lsq, ← hc]
      ring
    show 0 ≤ 1 - ((ray.dir.unit + ((-ray.dir.unit).dot rec.normal) *
      rec.normal).mult_float eta).length_squared
    rw [Vec3.length_squared_mult_float, hinner]
    nlinarith

/-- Witness for claim C6: a grazing back-face hit on a dielectric of index
1.5 triggers total internal reflection, so the reflection (with attenuation
`(1,1,1)`) is returned before `refract` is reached. -/
theorem C6_witness :
    (MaterialType.Dialectric 1.5).scatter ⟨⟨0, 2, 0⟩, ⟨1, 0, 0⟩⟩
      ⟨⟨0, 0, 0⟩, ⟨0, 1, 0⟩, ((1 : ℝ) : WithTop ℝ), false, .Dialectric 1.5⟩ ⟨0, 0, 0⟩ =
      some (⟨1, 1, 1⟩, Ray.mk ⟨0, 0, 0⟩
        (reflect (Vec3.mk 1 0 0).unit ⟨0, 1, 0⟩)) := by
  have h := (dielectric_guard 1.5 ⟨⟨0, 2, 0⟩, ⟨1, 0, 0⟩⟩
    ⟨⟨0, 0, 0⟩, ⟨0, 1, 0⟩, ((1 : ℝ) : WithTop ℝ), false, .Dialectric 1.5⟩ ⟨0, 0, 0⟩
    (by norm_num) (by norm_num [Vec3.unit_mk, Real.sqrt_one, Vec3.length_mk])
    (by norm_num [Vec3.length_mk, Real.sqrt_one])).2.1
  exact h (by norm_num [Vec3.unit_mk, Real.sqrt_one, Vec3.dot_mk, min_def])

/-! ## Claim C7 -/

/-- Claim C7: `Metal.scatter` returns a scatter exactly when the scattered
direction `reflect(unit(incoming.dir), normal) + fuzziness * hemisphere_sample`
has positive dot product with the normal, returning nothing (absorption)
otherwise; the returned pair carries the albedo and that direction; with
`fuzziness = 0` the scattered direction is the exact mirror reflection; and
`reflect (1,-1,0) (0,1,0) = (1,1,0)`. -/
theorem metal_scatter_charac (albedo : Vec3) (fuzziness : ℝ) (ray : Ray)
    (rec : HitRecord) (rnd : RandDraws) :
    ((∃ p, (MaterialType.Metal albedo fuzziness).scatter ray rec rnd = some p) ↔
      (reflect ray.dir.unit rec.normal +
        fuzziness * random_in_hemisphere rnd.a rnd.z rec.normal).dot rec.normal > 0) ∧
    (∀ p, (MaterialType.Metal albedo fuzziness).scatter ray rec rnd = some p →
      p = (albedo, Ray.mk rec.position (reflect ray.dir.unit rec.normal +
        fuzziness * random_in_hemisphere rnd.a rnd.z rec.normal))) ∧
    (fuzziness = 0 →
      ∀ p, (MaterialType.Metal albedo fuzziness).scatter ray rec rnd = some p →
        p.2.dir = reflect ray.dir.unit rec.normal) ∧
    reflect ⟨1, -1, 0⟩ ⟨0, 1, 0⟩ = ⟨1, 1, 0⟩ := by
  by_cases hd : (reflect ray.dir.unit rec.normal +
      fuzziness * random_in_hemisphere rnd.a rnd.z rec.normal).dot rec.normal > 0
  · refine ⟨⟨fun _ => hd, fun _ => ⟨(albedo, Ray.mk rec.position
        (reflect ray.dir.unit rec.normal +
          fuzziness * random_in_hemisphere rnd.a rnd.z rec.normal)),
        by simp [MaterialType.scatter, hd]⟩⟩, ?_, ?_, ?_⟩
    · intro p hp
      simp only [MaterialType.scatter, hd, if_true] at hp
      exact (Option.some.injEq _ _ ▸ hp).symm
    · rintro rfl p hp
      simp only [MaterialType.scatter, hd, if_true] at hp
      obtain rfl := Option.some.inj hp
      obtain ⟨rx, ry, rz⟩ := reflect ray.dir.unit rec.normal
      obtain ⟨hx1, hy1, hz1⟩ := random_in_hemisphere rnd.a rnd.z rec.normal
      simp only [Vec3.hmul_mk, Vec3.add_mk, Vec3.mk.injEq]
      norm_num
    · unfold reflect
      norm_num [Vec3.dot_mk, Vec3.hmul_mk, Vec3.mk_hmul, Vec3.sub_mk, Vec3.mk.injEq]
  · refine ⟨⟨fun ⟨p, hp⟩ => ?_, fun h => absurd h hd⟩, ?_, ?_, ?_⟩
    · simp only [MaterialType.scatter, hd, if_false] at hp
      exact Option.noConfusion hp
    · intro p hp
      simp only [MaterialType.scatter, hd, if_false] at hp
      exact Option.noConfusion hp
    · rintro rfl p hp
      simp only [MaterialType.scatter, hd, if_false] at hp
      exact Option.noConfusion hp
    · unfold reflect
      norm_num [Vec3.dot_mk, Vec3.hmul_mk, Vec3.mk_hmul, Vec3.sub_mk, Vec3.mk.injEq]

/-- Witness for claim C7: a mirror-facing metal hit scatters. -/
theorem C7_witness :
    ∃ p, (MaterialType.Metal ⟨0.8, 0.8, 0.8⟩ 0).scatter ⟨⟨0, 0, 0⟩, ⟨0, 0, 1⟩⟩
      ⟨⟨0, 0, 1⟩, ⟨0, 0, -1⟩, ((1 : ℝ) : WithTop ℝ), true,
        .Metal ⟨0.8, 0.8, 0.8⟩ 0⟩ ⟨0, 0, 0⟩ = some p := by
  refine (metal_scatter_charac ⟨0.8, 0.8, 0.8⟩ 0 ⟨⟨0, 0, 0⟩, ⟨0, 0, 1⟩⟩
    ⟨⟨0, 0, 1⟩, ⟨0, 0, -1⟩, ((1 : ℝ) : WithTop ℝ), true,
      .Metal ⟨0.8, 0.8, 0.8⟩ 0⟩ ⟨0, 0, 0⟩).1.mpr ?_
  rcases hh : random_in_hemisphere (0 : ℝ) 0 ⟨0, 0, -1⟩ with ⟨hx, hy, hz⟩
  norm_num [reflect, Vec3.unit_mk, Real.sqrt_one, hh, Vec3.hmul_mk, Vec3.mk_hmul,
    Vec3.dot_mk, Vec3.sub_mk, Vec3.add_mk]

/-! ## Claim C8 -/

/-- Claim C8: the nearest-hit query of `ray_color` is a linear scan keeping a
hit only when its `t` is strictly smaller than the current best, which starts
at infinity; hence the result has minimal `t` among all per-primitive hits,
and when it is a real hit it is the first hit in iteration order among those
attaining the minimum (every hit listed before it has strictly larger `t`);
with no hits the best stays at infinity. -/
theorem closest_hit_scan_spec (objects : List Sphere) (ray : Ray) :
    (∀ rec ∈ objects.filterMap (fun o => Sphere.hit o ray 0.0001 ⊤),
      (closest_hit objects ray 0.0001 ⊤ initial_record).t ≤ rec.t) ∧
    ((closest_hit objects ray 0.0001 ⊤ initial_record).t < ⊤ →
      ∃ l₁ l₂, objects.filterMap (fun o => Sphere.hit o ray 0.0001 ⊤) =
        l₁ ++ (closest_hit objects ray 0.0001 ⊤ initial_record) :: l₂ ∧
        ∀ x ∈ l₁, (closest_hit objects ray 0.0001 ⊤ initial_record).t < x.t) ∧
    ((∀ o ∈ objects, Sphere.hit o ray 0.0001 ⊤ = none) →
      (closest_hit objects ray 0.0001 ⊤ initial_record).t = ⊤) := by
  rw [closest_hit_eq_fold]
  rcases fold_min_spec (objects.filterMap (fun o => Sphere.hit o ray 0.0001 ⊤))
      initial_record with ⟨heq, hall⟩ | ⟨l₁, l₂, heq, hlt, hbefore, hall⟩
  · refine ⟨fun rec hrec => ?_, fun htop => ?_, fun hnone => ?_⟩
    · rw [heq]
      exact hall rec hrec
    · rw [heq, initial_record_t] at htop
      exact absurd htop (lt_irrefl _)
    · rw [heq, initial_record_t]
  · refine ⟨hall, fun _ => ⟨l₁, l₂, heq, hbefore⟩, fun hnone => ?_⟩
    rw [← closest_hit_eq_fold, closest_hit_all_none objects ray _ _ initial_record hnone,
      initial_record_t]

/-- Witness for claim C8: in a one-sphere scene the scan result is the first
(and only) hit of the filtered hit list. -/
theorem C8_witness :
    ∃ l₁ l₂, [(⟨⟨0, 0, 2⟩, 1, .Lambertian ⟨0.5, 0.5, 0.5⟩⟩ : Sphere)].filterMap
        (fun o => Sphere.hit o ⟨⟨0, 0, 0⟩, ⟨0, 0, 1⟩⟩ 0.0001 ⊤) =
      l₁ ++ (closest_hit [⟨⟨0, 0, 2⟩, 1, .Lambertian ⟨0.5, 0.5, 0.5⟩⟩]
        ⟨⟨0, 0, 0⟩, ⟨0, 0, 1⟩⟩ 0.0001 ⊤ initial_record) :: l₂ ∧
      ∀ x ∈ l₁, (closest_hit [⟨⟨0, 0, 2⟩, 1, .Lambertian ⟨0.5, 0.5, 0.5⟩⟩]
        ⟨⟨0, 0, 0⟩, ⟨0, 0, 1⟩⟩ 0.0001 ⊤ initial_record).t < x.t :=
  (closest_hit_scan_spec [⟨⟨0, 0, 2⟩, 1, .Lambertian ⟨0.5, 0.5, 0.5⟩⟩]
    ⟨⟨0, 0, 0⟩, ⟨0, 0, 1⟩⟩).2.1
    (by rw [closest_hit_example 1 _ (by norm_num)]; exact WithTop.coe_lt_top 1)

/-! ## Claim C9 -/

lemma clamp_bounds (y lo hi : ℝ) (h : lo ≤ hi) :
    lo ≤ clamp y lo hi ∧ clamp y lo hi ≤ hi := by
  unfold clamp
  split_ifs with h1 h2
  · exact ⟨le_refl lo, h⟩
  · exact ⟨h, le_refl hi⟩
  · exact ⟨not_lt.mp h1, not_lt.mp h2⟩

lemma clamp_eq_max_min (y : ℝ) : clamp y 0 0.9999 = max 0 (min y 0.9999) := by
  unfold clamp
  split_ifs with h1 h2
  · rw [min_eq_left (by linarith), max_eq_left (by linarith)]
  · rw [min_eq_right (by linarith), max_eq_right (by norm_num)]
  · rw [min_eq_left (by linarith), max_eq_right (not_lt.mp h1)]

/-- Claim C9: the per-channel output transform is, in order, square root,
clamp into `[0, 0.9999]` (returning the bound the input violates, the input
itself otherwise), scaling by `255.9`, and truncation to an integer that
always fits 8 bits. -/
theorem output_transform_pipeline (x : ℝ) :
    output_transform x = Int.toNat ⌊255.9 * clamp (Real.sqrt x) 0 0.9999⌋ ∧
    output_transform x = min 255 (Int.toNat ⌊255.9 * max 0 (min (Real.sqrt x) 0.9999)⌋) ∧
    output_transform x ≤ 255 := by
  have hb := clamp_bounds (Real.sqrt x) 0 0.9999 (by norm_num)
  have hlt : 255.9 * clamp (Real.sqrt x) 0 0.9999 < 256 := by nlinarith [hb.1, hb.2]
  have hfloor : ⌊255.9 * clamp (Real.sqrt x) 0 0.9999⌋ < 256 := by
    rw [Int.floor_lt]
    push_cast
    exact hlt
  have htn : Int.toNat ⌊255.9 * clamp (Real.sqrt x) 0 0.9999⌋ ≤ 255 := by omega
  refine ⟨?_, ?_, ?_⟩
  · unfold output_transform f64_as_u8
    omega
  · unfold output_transform f64_as_u8
    rw [clamp_eq_max_min]
  · unfold output_transform f64_as_u8
    omega

/-! ## Claim C10 -/

/-- Claim C10: every vector returned by `random_in_hemisphere` has length
exactly 1 as a function of the two underlying draws with `z ∈ [-1,1]`, and a
non-negative dot product with the given normal; consequently for a unit
normal the Lambertian scatter direction `normal + random_in_hemisphere normal`
is never the zero vector. -/
theorem random_in_hemisphere_unit (a z : ℝ) (normal : Vec3)
    (hz1 : -1 ≤ z) (hz2 : z ≤ 1) :
    (random_in_hemisphere a z normal).length = 1 ∧
    0 ≤ (random_in_hemisphere a z normal).dot normal ∧
    (normal.length = 1 → normal + random_in_hemisphere a z normal ≠ ⟨0, 0, 0⟩) := by
  have hlsq := random_in_unit_sphere_lsq a z hz1 hz2
  have hhem_lsq : (random_in_hemisphere a z normal).length_squared = 1 := by
    simp only [random_in_hemisphere]
    split_ifs
    · exact hlsq
    · rw [Vec3.neg_length_squared]
      exact hlsq
  have hhem_len : (random_in_hemisphere a z normal).length = 1 := by
    rw [Vec3.length, hhem_lsq, Real.sqrt_one]
  have hdot : 0 ≤ (random_in_hemisphere a z normal).dot normal := by
    simp only [random_in_hemisphere]
    split_ifs with h
    · exact le_of_lt h
    · rw [Vec3.dot_neg_left]
      linarith [not_lt.mp h]
  refine ⟨hhem_len, hdot, fun hn => ?_⟩
  intro hcontra
  have h2 : (normal + random_in_hemisphere a z normal).length_squared = 0 :=
    (Vec3.length_squared_eq_zero_iff _).mpr hcontra
  have hnl : normal.length_squared = 1 := by
    have := normal.length_mul_self
    rw [hn] at this
    linarith
  rw [Vec3.length_squared_add, hnl, hhem_lsq, Vec3.dot_comm] at h2
  linarith [hdot]

/-- Witness for claim C10: the hemisphere sample at draws `(0,0)` for the unit
normal `(0,1,0)`. -/
theorem C10_witness :
    (random_in_hemisphere 0 0 ⟨0, 1, 0⟩).length = 1 ∧
    0 ≤ (random_in_hemisphere 0 0 ⟨0, 1, 0⟩).dot ⟨0, 1, 0⟩ ∧
    (Vec3.mk 0 1 0) + random_in_hemisphere 0 0 ⟨0, 1, 0⟩ ≠ ⟨0, 0, 0⟩ :=
  ⟨(random_in_hemisphere_unit 0 0 ⟨0, 1, 0⟩ (by norm_num) (by norm_num)).1,
   (random_in_hemisphere_unit 0 0 ⟨0, 1, 0⟩ (by norm_num) (by norm_num)).2.1,
   (random_in_hemisphere_unit 0 0 ⟨0, 1, 0⟩ (by norm_num) (by norm_num)).2.2
     (by norm_num [Vec3.length_mk, Real.sqrt_one])⟩

end
